import Mathlib

/-!
Verification of the Date Resolution and Merge Engine of the
calendario-laboral-espana repository.

The development shallowly embeds, in Lean 4:

* the relative-date calculator `src/scrapers/utils/date_calculator.py`
  (Easter computus of `dateutil.easter` western method, carnival,
  Pentecost, Ascension, Corpus Christi, the month-calendar grid of
  `calendar.monthcalendar`, and the ordinal weekday-of-month resolver);
* the fixed Spanish date parser `BaseScraper.parse_fecha_espanol` of
  `src/scrapers/core/base_scraper.py`;
* the merge, deduplication and substitution steps of
  `scrape_festivos_completos` in `src/scrape_municipio.py`
  (the Resolver, called `resolve_calendar` in the design document).

Dates are modelled as year-month-day triples over `Int`; day arithmetic
goes through the proleptic Gregorian day count (the same calendar that
backs Python `datetime.date.toordinal`).
-/

namespace CalendarioLaboral

/-- A calendar date: the `(year, month, day)` triple carried by Python
`datetime` values in the source. -/
structure Fecha where
  year : Int
  month : Int
  day : Int
deriving DecidableEq, Repr

/-- Gregorian leap-year test, as Python `calendar.isleap`:
`y % 4 == 0 and (y % 100 != 0 or y % 400 == 0)`. -/
def isLeapB (y : Int) : Bool :=
  y % 4 == 0 && (!(y % 100 == 0) || y % 400 == 0)

/-- Number of days of a month, as used by `datetime` and
`calendar.monthrange` (months outside 1..12 are rejected upstream). -/
def daysInMonth (y m : Int) : Int :=
  if m = 1 then 31
  else if m = 2 then (if isLeapB y then 29 else 28)
  else if m = 3 then 31
  else if m = 4 then 30
  else if m = 5 then 31
  else if m = 6 then 30
  else if m = 7 then 31
  else if m = 8 then 31
  else if m = 9 then 30
  else if m = 10 then 31
  else if m = 11 then 30
  else if m = 12 then 31
  else 0

/-- The day-of-month-independent part of the `days_from_civil`
day-number algorithm: the day number of the zeroth day of the month. -/
def daysFromCivilBase (y m : Int) : Int :=
  let yy := if m ≤ 2 then y - 1 else y
  let era := Int.fdiv yy 400
  let yoe := yy - era * 400
  let doyMonth := Int.fdiv (153 * (if 2 < m then m - 3 else m + 9) + 2) 5
  era * 146097 + (yoe * 365 + Int.fdiv yoe 4 - Int.fdiv yoe 100 + doyMonth) - 719468

/-- Day number of a proleptic Gregorian civil date, counted from the Unix
epoch 1970-01-01; the standard `days_from_civil` algorithm (whose
day-of-year is `doyMonth + d - 1`), which agrees with Python
`datetime.date.toordinal` up to a constant shift. -/
def daysFromCivil (y m d : Int) : Int := daysFromCivilBase y m + d - 1

/-- Inverse of `daysFromCivil`: the `civil_from_days` algorithm. -/
def civilFromDays (z0 : Int) : Fecha :=
  let z := z0 + 719468
  let era := Int.fdiv z 146097
  let doe := z - era * 146097
  let yoe := Int.fdiv (doe - Int.fdiv doe 1460 + Int.fdiv doe 36524 - Int.fdiv doe 146096) 365
  let y := yoe + era * 400
  let doy := doe - (365 * yoe + Int.fdiv yoe 4 - Int.fdiv yoe 100)
  let mp := Int.fdiv (5 * doy + 2) 153
  let d := doy - Int.fdiv (153 * mp + 2) 5 + 1
  let m := if mp < 10 then mp + 3 else mp - 9
  ⟨if m ≤ 2 then y + 1 else y, m, d⟩

/-- Day count of a `Fecha`. -/
def toRd (f : Fecha) : Int := daysFromCivil f.year f.month f.day

/-- `f + timedelta(days := k)` of the source. -/
def addDays (f : Fecha) (k : Int) : Fecha := civilFromDays (toRd f + k)

/-- Python `datetime.weekday()`: Monday = 0 .. Sunday = 6.
1970-01-01 was a Thursday (= 3). -/
def pyWeekday (y m d : Int) : Int := (daysFromCivil y m d + 3) % 7

/-- `dateutil.easter.easter year` (western, Gregorian method 3), the
function the source imports for `calcular_pascua`. -/
def calcular_pascua (y : Int) : Fecha :=
  let g := y % 19
  let c := Int.fdiv y 100
  let h := (c - Int.fdiv c 4 - Int.fdiv (8 * c + 13) 25 + 19 * g + 15) % 30
  let i := h - (Int.fdiv h 28) * (1 - (Int.fdiv h 28) * (Int.fdiv 29 (h + 1)) * (Int.fdiv (21 - g) 11))
  let j := (y + Int.fdiv y 4 + i + 2 - c + Int.fdiv c 4) % 7
  let p := i - j
  let d := 1 + (p + 27 + Int.fdiv (p + 6) 40) % 31
  let m := 3 + Int.fdiv (p + 26) 30
  ⟨y, m, d⟩

example : calcular_pascua 2026 = ⟨2026, 4, 5⟩ := by decide
example : addDays ⟨2026, 4, 5⟩ 50 = ⟨2026, 5, 25⟩ := by decide
example : addDays ⟨2026, 4, 5⟩ (-46) = ⟨2026, 2, 18⟩ := by decide
example : pyWeekday 2026 2 18 = 2 := by decide
example : pyWeekday 2026 4 5 = 6 := by decide

/-! ### String helpers modelling the Python text operations -/

/-- Substring test on character lists: Python `needle in hay`. -/
def hasSubAux (hay needle : List Char) : Bool :=
  if needle.isPrefixOf hay then true
  else
    match hay with
    | [] => false
    | _ :: t => hasSubAux t needle

/-- Python `needle in hay` on strings. -/
def hasSubstr (hay needle : String) : Bool := hasSubAux hay.toList needle.toList

/-- Python `str.lower()`. `Char.toLower` only folds the ASCII range; the
accented letters appearing in the source tables are already lowercase. -/
def strLower (s : String) : String := String.mk (s.data.map Char.toLower)

/-- Python `str.strip()`. -/
def strTrim (s : String) : String :=
  String.mk (((s.data.dropWhile Char.isWhitespace).reverse.dropWhile Char.isWhitespace).reverse)

/-! ### Lookup tables of `src/scrapers/utils/date_calculator.py` -/

/-- `DIAS_SEMANA` of the source: Spanish weekday name to number,
0 = lunes .. 6 = domingo. -/
def DIAS_SEMANA (s : String) : Option Int :=
  if s == "lunes" then some 0
  else if s == "martes" then some 1
  else if s == "miércoles" then some 2
  else if s == "miercoles" then some 2
  else if s == "jueves" then some 3
  else if s == "viernes" then some 4
  else if s == "sábado" then some 5
  else if s == "sabado" then some 5
  else if s == "domingo" then some 6
  else none

/-- `ORDINALES` of the source: Spanish ordinal word to index. -/
def ORDINALES (s : String) : Option Int :=
  if s == "primer" then some 1
  else if s == "primero" then some 1
  else if s == "primera" then some 1
  else if s == "segundo" then some 2
  else if s == "segunda" then some 2
  else if s == "tercer" then some 3
  else if s == "tercero" then some 3
  else if s == "tercera" then some 3
  else if s == "cuarto" then some 4
  else if s == "cuarta" then some 4
  else if s == "quinto" then some 5
  else if s == "quinta" then some 5
  else if s == "último" then some (-1)
  else if s == "ultima" then some (-1)
  else if s == "penúltimo" then some (-2)
  else if s == "penultimo" then some (-2)
  else none

/-- `MESES` of the source: Spanish month name to number. -/
def MESES (s : String) : Option Int :=
  if s == "enero" then some 1
  else if s == "febrero" then some 2
  else if s == "marzo" then some 3
  else if s == "abril" then some 4
  else if s == "mayo" then some 5
  else if s == "junio" then some 6
  else if s == "julio" then some 7
  else if s == "agosto" then some 8
  else if s == "septiembre" then some 9
  else if s == "setiembre" then some 9
  else if s == "octubre" then some 10
  else if s == "noviembre" then some 11
  else if s == "diciembre" then some 12
  else none

/-! ### Liturgical calculators -/

/-- `calcular_carnaval` of the source: carnival days placed relative to
Ash Wednesday (`pascua - 46`), through the `dias_antes` table.  The table
is reproduced exactly as written in the source, including its offsets and
its set of keys (note: no unaccented variants there). -/
def calcular_carnaval (year : Int) (dia_semana : String) : Option Fecha :=
  let pascua := calcular_pascua year
  let miercoles_ceniza := addDays pascua (-46)
  let diasAntes : Option Int :=
    let dn := strLower dia_semana
    if dn == "domingo" then some 2
    else if dn == "lunes" then some 1
    else if dn == "martes" then some 0
    else if dn == "miércoles" then some (-1)
    else if dn == "jueves" then some 3
    else if dn == "viernes" then some 4
    else if dn == "sábado" then some 5
    else none
  diasAntes.map (fun k => addDays miercoles_ceniza (-k))

/-- `calcular_pentecostes` of the source. -/
def calcular_pentecostes (year : Int) (dia : String) : Option Fecha :=
  let pascua := calcular_pascua year
  let dn := strTrim (strLower dia)
  if dn == "domingo" || dn == "pentecostés" || dn == "pentecostes" then
    some (addDays pascua 49)
  else if dn == "lunes" then
    some (addDays pascua 50)
  else if dn == "segundo día" || dn == "segundo dia" || dn == "martes" then
    some (addDays pascua 51)
  else none

/-- `calcular_ascension` of the source: Easter + 39. -/
def calcular_ascension (year : Int) : Fecha := addDays (calcular_pascua year) 39

/-- `calcular_corpus_christi` of the source: Easter + 60. -/
def calcular_corpus_christi (year : Int) : Fecha := addDays (calcular_pascua year) 60

/-- Weekday alternatives in the order they appear in the source regexes:
`lunes|martes|miércoles|miercoles|jueves|viernes|sábado|sabado|domingo`. -/
def dayAlts : List String :=
  ["lunes", "martes", "miércoles", "miercoles", "jueves", "viernes", "sábado", "sabado", "domingo"]

/-- Match, at the head of `cs`, the regex `(day)\s+de\s+carnaval` used by
the carnival branch of `calcular_liturgico`, returning the captured
weekday word. -/
def matchCarnavalAt (cs : List Char) : Option String :=
  dayAlts.findSome? (fun d =>
    let dl := d.toList
    if dl.isPrefixOf cs then
      let r1 := cs.drop dl.length
      let ws1 := r1.takeWhile Char.isWhitespace
      if ws1.isEmpty then none
      else
        match r1.drop ws1.length with
        | 'd' :: 'e' :: r2 =>
          let ws2 := r2.takeWhile Char.isWhitespace
          if ws2.isEmpty then none
          else if ("carnaval".toList).isPrefixOf (r2.drop ws2.length) then some d else none
        | _ => none
    else none)

/-- Leftmost search of the carnival regex, as `re.search`. -/
def buscarCarnavalDia : List Char → Option String
  | [] => none
  | c :: rest =>
    match matchCarnavalAt (c :: rest) with
    | some d => some d
    | none => buscarCarnavalDia rest

/-- `calcular_liturgico` of the source: carnival, then Pentecost, then
Ascension, then Corpus Christi, falling through branch to branch exactly
as the Python function does. -/
def calcular_liturgico (year : Int) (texto : String) : Option (Fecha × String) :=
  let tl := strLower texto
  let car : Option (Fecha × String) :=
    if hasSubstr tl "carnaval" then
      match buscarCarnavalDia tl.toList with
      | some diaStr =>
        match calcular_carnaval year diaStr with
        | some fecha => some (fecha, "liturgico_carnaval: " ++ diaStr)
        | none => none
      | none => none
    else none
  match car with
  | some r => some r
  | none =>
    let pent : Option (Fecha × String) :=
      if hasSubstr tl "pentecostés" || hasSubstr tl "pentecostes" then
        if hasSubstr tl "segundo día" || hasSubstr tl "segundo dia" then
          (calcular_pentecostes year "segundo día").map
            (fun f => (f, "liturgico_pentecostes: segundo día"))
        else if hasSubstr tl "lunes" then
          (calcular_pentecostes year "lunes").map
            (fun f => (f, "liturgico_pentecostes: lunes"))
        else
          (calcular_pentecostes year "domingo").map
            (fun f => (f, "liturgico_pentecostes: domingo"))
      else none
    match pent with
    | some r => some r
    | none =>
      if hasSubstr tl "ascensión" || hasSubstr tl "ascension" then
        some (calcular_ascension year, "liturgico_ascension")
      else if hasSubstr tl "corpus" then
        some (calcular_corpus_christi year, "liturgico_corpus")
      else none

/-! ### Month-calendar grid and ordinal weekday resolution -/

/-- Weekday of the first day of a month, Monday = 0. -/
def firstWeekdayOfMonth (y m : Int) : Int := pyWeekday y m 1

/-- Number of week rows of `calendar.monthcalendar y m` with the default
`firstweekday = 0` (Monday): enough Monday-aligned rows to cover the
month. -/
def mcNumWeeks (y m : Int) : Nat :=
  ((firstWeekdayOfMonth y m + daysInMonth y m).toNat + 6) / 7

/-- Grid cell `i` (row-major over the Monday-aligned grid): the day of
the month falling there, or `0` for a cell outside the month — exactly
the padding convention of `calendar.monthcalendar`. -/
def mcCell (y m : Int) (i : Nat) : Int :=
  if 1 ≤ (i : Int) - firstWeekdayOfMonth y m + 1 ∧
      (i : Int) - firstWeekdayOfMonth y m + 1 ≤ daysInMonth y m then
    (i : Int) - firstWeekdayOfMonth y m + 1
  else 0

/-- One week row of the grid. -/
def mcWeek (y m : Int) (j : Nat) : List Int :=
  (List.range 7).map (fun c => mcCell y m (7 * j + c))

/-- `calendar.monthcalendar y m`: the list of week rows, each of length
7, Monday first, out-of-month cells `0`. -/
def monthcalendar (y m : Int) : List (List Int) :=
  (List.range (mcNumWeeks y m)).map (mcWeek y m)

/-- The loop of `obtener_nth_dia_semana_del_mes` collecting column
`dia_semana` of every week row, skipping the `0` padding cells. -/
def diasDelMesGrid (y m w : Int) : List Int :=
  (monthcalendar y m).filterMap (fun semana =>
    let dia := semana.getD w.toNat 0
    if dia = 0 then none else some dia)

/-- Specification-side description of the same list (spec 4.2, family 2:
all days of that weekday in the target year and month, in calendar
order). `diasDelMesGrid_eq_diasDelMesSpec` below proves the grid
traversal of the source produces exactly this list. -/
def diasDelMesSpec (y m w : Int) : List Int :=
  ((List.range (daysInMonth y m).toNat).map (fun k : Nat => (k : Int) + 1)).filter
    (fun d => pyWeekday y m d == w)

/-- `obtener_nth_dia_semana_del_mes` of the source: validate month and
weekday, collect the grid column, then index it Python-style (`n - 1`
from the front for positive `n`, `len + n` from the back for negative
`n`, after the source's `abs n ≤ len` guard; an out-of-range index,
which raises in Python, is modelled as `none`). -/
def obtener_nth_dia_semana_del_mes (year month dia_semana n : Int) : Option Fecha :=
  if ¬(1 ≤ month ∧ month ≤ 12) then none
  else if ¬(0 ≤ dia_semana ∧ dia_semana ≤ 6) then none
  else if 0 < n then
    if n ≤ ((diasDelMesGrid year month dia_semana).length : Int) then
      ((diasDelMesGrid year month dia_semana).get? (n.toNat - 1)).map
        (fun d => Fecha.mk year month d)
    else none
  else
    if -n ≤ ((diasDelMesGrid year month dia_semana).length : Int) then
      ((diasDelMesGrid year month dia_semana).get?
          (if n = 0 then 0
           else (((diasDelMesGrid year month dia_semana).length : Int) + n).toNat)).map
        (fun d => Fecha.mk year month d)
    else none

/-- Ordinal alternatives in the order they appear in the source regex of
`calcular_ordinal_simple`. -/
def ordAlts : List String :=
  ["primer", "primero", "primera", "segundo", "segunda", "tercer", "tercero", "tercera",
   "cuarto", "cuarta", "quinto", "quinta", "último", "ultima", "penúltimo", "penultimo"]

/-- Python `\w` (Unicode word character), restricted to what the inputs
of this repository contain: ASCII alphanumerics, underscore, and
non-ASCII letters. -/
def isWordChar (c : Char) : Bool := c.isAlphanum || c == '_' || decide (127 < c.toNat)

/-- Match, at the head of `cs`, the regex
`(ordinal)\s+(day)\s+de\s+(\w+)` of `calcular_ordinal_simple`,
alternatives tried in regex order, returning the three captured
groups. -/
def matchOrdinalAt (cs : List Char) : Option (String × String × String) :=
  ordAlts.findSome? (fun o =>
    let ol := o.toList
    if ol.isPrefixOf cs then
      let r1 := cs.drop ol.length
      let ws1 := r1.takeWhile Char.isWhitespace
      if ws1.isEmpty then none
      else
        dayAlts.findSome? (fun dw =>
          let dl := dw.toList
          let r2 := r1.drop ws1.length
          if dl.isPrefixOf r2 then
            let r3 := r2.drop dl.length
            let ws2 := r3.takeWhile Char.isWhitespace
            if ws2.isEmpty then none
            else
              match r3.drop ws2.length with
              | 'd' :: 'e' :: r4 =>
                let ws3 := r4.takeWhile Char.isWhitespace
                if ws3.isEmpty then none
                else
                  let wcs := (r4.drop ws3.length).takeWhile isWordChar
                  if wcs.isEmpty then none else some (o, dw, String.mk wcs)
              | _ => none
          else none)
    else none)

/-- Leftmost search of the simple-ordinal regex, as `re.search`. -/
def buscarOrdinal : List Char → Option (String × String × String)
  | [] => none
  | c :: rest =>
    match matchOrdinalAt (c :: rest) with
    | some r => some r
    | none => buscarOrdinal rest

/-- `calcular_ordinal_simple` of the source. -/
def calcular_ordinal_simple (year : Int) (texto : String) : Option (Fecha × String) :=
  match buscarOrdinal (strLower texto).data with
  | none => none
  | some (ordinalStr, diaSemanaStr, mesStr) =>
    match ORDINALES ordinalStr, DIAS_SEMANA diaSemanaStr, MESES mesStr with
    | some ordinal, some diaSemana, some mes =>
      match obtener_nth_dia_semana_del_mes year mes diaSemana ordinal with
      | some fecha =>
        some (fecha, "ordinal_simple: " ++ ordinalStr ++ " " ++ diaSemanaStr ++ " de " ++ mesStr)
      | none => none
    | _, _, _ => none

example : diasDelMesGrid 2026 9 4 = [4, 11, 18, 25] := by decide
example : diasDelMesSpec 2026 9 4 = [4, 11, 18, 25] := by decide
example : calcular_ordinal_simple 2026 "Segundo viernes de septiembre" =
    some (⟨2026, 9, 11⟩, "ordinal_simple: segundo viernes de septiembre") := by decide
example : obtener_nth_dia_semana_del_mes 2026 9 4 5 = none := by decide
example : obtener_nth_dia_semana_del_mes 2026 9 4 (-1) = some ⟨2026, 9, 25⟩ := by decide
example : obtener_nth_dia_semana_del_mes 2026 9 4 (-2) = some ⟨2026, 9, 18⟩ := by decide

example : calcular_liturgico 2026 "Lunes de Pentecostés" =
    some (⟨2026, 5, 25⟩, "liturgico_pentecostes: lunes") := by decide
example : calcular_liturgico 2026 "Martes de Carnaval" =
    some (⟨2026, 2, 18⟩, "liturgico_carnaval: martes") := by decide
example : calcular_liturgico 2026 "jueves santo" = none := by decide
example : ∀ y : Int, calcular_liturgico y "viernes santo" = none := fun _ => rfl
example : ∀ y : Int, calcular_pentecostes y "lunes" =
    some (addDays (calcular_pascua y) 50) := fun _ => rfl

/-! ### Fixed Spanish date parser, `BaseScraper.parse_fecha_espanol` -/

/-- `int` of a digit run. -/
def digitsToInt (ds : List Char) : Int :=
  ds.foldl (fun a c => a * 10 + ((c.toNat : Int) - 48)) 0

/-- Month table of `BaseScraper.parse_fecha_espanol` (note: unlike the
`MESES` of the date calculator, it has no `setiembre` variant). -/
def MESES_BASE (s : String) : Option Int :=
  if s == "enero" then some 1
  else if s == "febrero" then some 2
  else if s == "marzo" then some 3
  else if s == "abril" then some 4
  else if s == "mayo" then some 5
  else if s == "junio" then some 6
  else if s == "julio" then some 7
  else if s == "agosto" then some 8
  else if s == "septiembre" then some 9
  else if s == "octubre" then some 10
  else if s == "noviembre" then some 11
  else if s == "diciembre" then some 12
  else none

/-- Validity domain of the Python `datetime(year, month, day)`
constructor: years 1..9999, months 1..12, days 1..month length. -/
def isValidDateB (y m d : Int) : Bool :=
  1 ≤ y && y ≤ 9999 && 1 ≤ m && m ≤ 12 && 1 ≤ d && d ≤ daysInMonth y m

/-- Match, at the head of `cs`, the regex `(\d+)\s+(?:de\s+)?(\w+)` used
by `parse_fecha_espanol` (the `de` connector case-insensitively, as
`re.IGNORECASE` demands), returning day number and month word. -/
def matchFechaFijaAt (cs : List Char) : Option (Int × String) :=
  let ds := cs.takeWhile Char.isDigit
  if ds.isEmpty then none
  else
    let r1 := cs.drop ds.length
    let ws1 := r1.takeWhile Char.isWhitespace
    if ws1.isEmpty then none
    else
      let r2 := r1.drop ws1.length
      let r3 :=
        match r2 with
        | c1 :: c2 :: rest =>
          if (c1 == 'd' || c1 == 'D') && (c2 == 'e' || c2 == 'E') then
            let ws2 := rest.takeWhile Char.isWhitespace
            if ws2.isEmpty then r2 else rest.drop ws2.length
          else r2
        | _ => r2
      let wcs := r3.takeWhile isWordChar
      if wcs.isEmpty then none else some (digitsToInt ds, String.mk wcs)

/-- Leftmost search of the fixed-date regex, as `re.search`. -/
def buscarFechaFija : List Char → Option (Int × String)
  | [] => none
  | c :: rest =>
    match matchFechaFijaAt (c :: rest) with
    | some r => some r
    | none => buscarFechaFija rest

/-- `BaseScraper.parse_fecha_espanol` of
`src/scrapers/core/base_scraper.py`: extract day and month word with the
regex, look the month up, and build the date — Python raising
`ValueError` on an invalid day-for-month combination (caught, yielding
`None`) is modelled by the `isValidDateB` test.  The source also returns
the normalised source text alongside the date; only the date is modelled
here. -/
def parse_fecha_espanol (year : Int) (texto : String) : Option Fecha :=
  match buscarFechaFija texto.data with
  | none => none
  | some (dia, mesTexto) =>
    match MESES_BASE (strLower mesTexto) with
    | none => none
    | some mes => if isValidDateB year mes dia then some ⟨year, mes, dia⟩ else none

example : parse_fecha_espanol 2026 "15 de mayo" = some ⟨2026, 5, 15⟩ := by decide
example : parse_fecha_espanol 2026 "25 diciembre" = some ⟨2026, 12, 25⟩ := by decide
example : parse_fecha_espanol 2024 "31 de febrero" = none := by decide
example : parse_fecha_espanol 2026 "9 de foo" = none := by decide
example : buscarFechaFija "31 de febrero".data = some (31, "febrero") := by decide

/-! ### The Merge and Substitution Resolver of `scrape_municipio.py` -/

/-- A holiday record, as the dictionaries flowing through
`scrape_festivos_completos`: an ISO `fecha` string, the optional `tipo`
jurisdiction tag (read with default `nacional`), and a description. -/
structure Festivo where
  fecha : String
  tipo : Option String
  descripcion : String
deriving DecidableEq, Repr

/-- `festivo.get('tipo', 'nacional')` of the source. -/
def tipoDe (f : Festivo) : String := f.tipo.getD "nacional"

/-- The `prioridad` dictionary with its `.get(_, 0)` default:
`local` 3, `nacional` 2, `autonomico` 1, anything else 0. -/
def prioridadDe (t : String) : Nat :=
  if t == "local" then 3
  else if t == "nacional" then 2
  else if t == "autonomico" then 1
  else 0

/-- Priority of a record. -/
def prioF (f : Festivo) : Nat := prioridadDe (tipoDe f)

/-- One iteration of the deduplication loop over the `festivos_unicos`
insertion-ordered dictionary: a new date is appended; an existing date
keeps its position and is overwritten only by a strictly higher
priority record. -/
def insertFestivo : List (String × Festivo) → Festivo → List (String × Festivo)
  | [], f => [(f.fecha, f)]
  | (k, g) :: rest, f =>
    if k = f.fecha then
      if prioF g < prioF f then (k, f) :: rest else (k, g) :: rest
    else (k, g) :: insertFestivo rest f

/-- The full deduplication loop (`festivos_unicos` built over
`festivos_todos`). -/
def dedupFestivos (l : List Festivo) : List (String × Festivo) :=
  l.foldl insertFestivo []

/-- Code-point lexicographic string order, as Python string `<=`
(the `key=lambda x: x['fecha']` sort key comparison). -/
def strLeAux : List Char → List Char → Bool
  | [], _ => true
  | _ :: _, [] => false
  | c :: cs, d :: ds =>
    if c.toNat < d.toNat then true
    else if d.toNat < c.toNat then false
    else strLeAux cs ds

/-- Python `a <= b` on strings. -/
def strLeB (a b : String) : Bool := strLeAux a.data b.data

/-- Stable insertion of a record into a `fecha`-sorted list. -/
def insFecha (f : Festivo) : List Festivo → List Festivo
  | [] => [f]
  | g :: gs => if strLeB f.fecha g.fecha then f :: g :: gs else g :: insFecha f gs

/-- `sorted(_, key=lambda x: x['fecha'])` of the source: a stable sort
by the `fecha` string (stability is irrelevant here because the
deduplicated dates are distinct, but the model keeps it). -/
def sortByFecha : List Festivo → List Festivo
  | [] => []
  | f :: fs => insFecha f (sortByFecha fs)

/-- Lines 103-121 of `src/scrape_municipio.py`: concatenate the three
jurisdiction layers in scrape order (national, regional, local),
deduplicate by date with the priority rule, and sort ascending by
date. -/
def mergeFestivos (nacional autonomicos locales : List Festivo) : List Festivo :=
  sortByFecha ((dedupFestivos (nacional ++ autonomicos ++ locales)).map Prod.snd)

/-- The `festivos_sustituidos` set of lines 124-131: for canarias in
2025, the date `2025-10-12` (12 de octubre falling on a Sunday,
substituted by 30 de mayo); empty otherwise. -/
def festivosSustituidos (ccaa : String) (year : Int) : List String :=
  if strLower ccaa == "canarias" then
    if year == 2025 then ["2025-10-12"] else []
  else []

/-- Lines 103-136 of `src/scrape_municipio.py` — the Merge and
Substitution Resolver (`resolve_calendar` of the design document):
merge, then drop every record whose date is in the substitution set. -/
def resolve_calendar (ccaa : String) (year : Int)
    (nacional autonomicos locales : List Festivo) : List Festivo :=
  if (festivosSustituidos ccaa year).isEmpty then
    mergeFestivos nacional autonomicos locales
  else
    (mergeFestivos nacional autonomicos locales).filter
      (fun f => !((festivosSustituidos ccaa year).contains f.fecha))

example :
    resolve_calendar "madrid" 2026
      [⟨"2026-01-01", some "nacional", "Año Nuevo"⟩]
      [⟨"2026-05-02", some "autonomico", "Comunidad"⟩]
      [⟨"2026-01-01", some "local", "Fiesta local"⟩] =
      [⟨"2026-01-01", some "local", "Fiesta local"⟩,
       ⟨"2026-05-02", some "autonomico", "Comunidad"⟩] := by decide

example :
    resolve_calendar "canarias" 2025 []
      [⟨"2025-05-30", some "autonomico", "Dia de Canarias"⟩]
      [⟨"2025-10-12", some "local", "Fiesta local"⟩] =
      [⟨"2025-05-30", some "autonomico", "Dia de Canarias"⟩] := by decide

/-! ### Order lemmas for the `fecha` sort -/

theorem strLeAux_total : ∀ a b, strLeAux a b = true ∨ strLeAux b a = true
  | [], _ => Or.inl rfl
  | _ :: _, [] => Or.inr rfl
  | c :: cs, d :: ds => by
    simp only [strLeAux]
    rcases Nat.lt_trichotomy c.toNat d.toNat with h | h | h
    · left
      simp [h]
    · rcases strLeAux_total cs ds with ih | ih <;>
        simp [h, Nat.lt_irrefl, ih]
    · right
      simp [h, Nat.lt_asymm h]

theorem strLeAux_trans :
    ∀ a b c, strLeAux a b = true → strLeAux b c = true → strLeAux a c = true
  | [], _, _, _, _ => rfl
  | _ :: _, [], _, h1, _ => by simp [strLeAux] at h1
  | _ :: _, _ :: _, [], _, h2 => by simp [strLeAux] at h2
  | x :: xs, y :: ys, z :: zs, h1, h2 => by
    simp only [strLeAux] at h1 h2 ⊢
    rcases Nat.lt_trichotomy x.toNat y.toNat with hxy | hxy | hxy
    · rcases Nat.lt_trichotomy y.toNat z.toNat with hyz | hyz | hyz
      · simp [hxy.trans hyz]
      · have hxz : x.toNat < z.toNat := hyz ▸ hxy
        simp [hxz]
      · rw [if_neg (by omega), if_pos hyz] at h2
        exact Bool.noConfusion h2
    · rcases Nat.lt_trichotomy y.toNat z.toNat with hyz | hyz | hyz
      · have hxz : x.toNat < z.toNat := hxy ▸ hyz
        simp [hxz]
      · have h1' : strLeAux xs ys = true := by
          rw [if_neg (by omega), if_neg (by omega)] at h1
          exact h1
        have h2' : strLeAux ys zs = true := by
          rw [if_neg (by omega), if_neg (by omega)] at h2
          exact h2
        have hxz : ¬ x.toNat < z.toNat := by omega
        have hzx : ¬ z.toNat < x.toNat := by omega
        rw [if_neg hxz, if_neg hzx]
        exact strLeAux_trans xs ys zs h1' h2'
      · rw [if_neg (by omega), if_pos hyz] at h2
        exact Bool.noConfusion h2
    · rw [if_neg (by omega), if_pos hxy] at h1
      exact Bool.noConfusion h1

theorem strLeB_total (a b : String) : strLeB a b = true ∨ strLeB b a = true :=
  strLeAux_total a.data b.data

theorem strLeB_trans {a b c : String} (h1 : strLeB a b = true) (h2 : strLeB b c = true) :
    strLeB a c = true :=
  strLeAux_trans a.data b.data c.data h1 h2

/-- The ordering relation of the Resolver output: nondecreasing `fecha`
strings. -/
def fechaLe (a b : Festivo) : Prop := strLeB a.fecha b.fecha = true

theorem insFecha_perm (f : Festivo) : ∀ l, List.Perm (insFecha f l) (f :: l)
  | [] => List.Perm.refl _
  | g :: gs => by
    simp only [insFecha]
    by_cases hle : strLeB f.fecha g.fecha = true
    · rw [if_pos hle]
    · rw [if_neg hle]
      exact ((insFecha_perm f gs).cons g).trans (List.Perm.swap f g gs)

theorem sortByFecha_perm : ∀ l, List.Perm (sortByFecha l) l
  | [] => List.Perm.refl _
  | f :: fs => (insFecha_perm f (sortByFecha fs)).trans ((sortByFecha_perm fs).cons f)

theorem insFecha_pairwise (f : Festivo) :
    ∀ l, l.Pairwise fechaLe → (insFecha f l).Pairwise fechaLe
  | [], _ => by simp [insFecha, fechaLe]
  | g :: gs, h => by
    rcases List.pairwise_cons.1 h with ⟨hg, hgs⟩
    simp only [insFecha]
    by_cases hle : strLeB f.fecha g.fecha = true
    · rw [if_pos hle]
      refine List.pairwise_cons.2 ⟨?_, h⟩
      intro x hx
      rcases List.mem_cons.1 hx with rfl | hx'
      · exact hle
      · exact strLeB_trans hle (hg x hx')
    · rw [if_neg hle]
      have hgf : fechaLe g f := by
        rcases strLeB_total f.fecha g.fecha with ht | ht
        · exact absurd ht hle
        · exact ht
      refine List.pairwise_cons.2 ⟨?_, insFecha_pairwise f gs hgs⟩
      intro x hx
      have hx' := (insFecha_perm f gs).subset hx
      rcases List.mem_cons.1 hx' with rfl | hx''
      · exact hgf
      · exact hg x hx''

theorem sortByFecha_pairwise : ∀ l, (sortByFecha l).Pairwise fechaLe
  | [] => List.Pairwise.nil
  | f :: fs => insFecha_pairwise f (sortByFecha fs) (sortByFecha_pairwise fs)

/-! ### Semantics of the deduplication loop -/

/-- Association-list lookup by date (dictionary access on
`festivos_unicos`). -/
def alookup (d : String) : List (String × Festivo) → Option Festivo
  | [] => none
  | (k, v) :: rest => if k = d then some v else alookup d rest

/-- What one loop iteration does to the record stored at one fixed date
`d`. -/
def winnerStep (d : String) (cur : Option Festivo) (f : Festivo) : Option Festivo :=
  if f.fecha = d then
    match cur with
    | none => some f
    | some g => if prioF g < prioF f then some f else some g
  else cur

/-- The record the loop leaves at date `d` after processing `l`. -/
def winner (d : String) (l : List Festivo) : Option Festivo :=
  l.foldl (winnerStep d) none

/-- Left fold keeping the first record of maximal priority. -/
def keepMax : Festivo → List Festivo → Festivo
  | cur, [] => cur
  | cur, f :: fs => keepMax (if prioF cur < prioF f then f else cur) fs

/-- Keys (dates) of the dictionary. -/
def keysOf (l : List (String × Festivo)) : List String := l.map Prod.fst

theorem alookup_insertFestivo (d : String) (f : Festivo) :
    ∀ acc, alookup d (insertFestivo acc f) = winnerStep d (alookup d acc) f
  | [] => by
    simp [insertFestivo, alookup, winnerStep]
  | (k, g) :: rest => by
    by_cases hk : k = f.fecha
    · by_cases hd : f.fecha = d
      · have hkd : k = d := hk.trans hd
        by_cases hp : prioF g < prioF f <;>
          simp [insertFestivo, alookup, winnerStep, hk, hd, hkd, hp]
      · have hkd : ¬ k = d := by
          rw [hk]
          exact hd
        by_cases hp : prioF g < prioF f <;>
          simp [insertFestivo, alookup, winnerStep, hk, hd, hkd, hp]
    · by_cases hd : k = d
      · have hfd : ¬ f.fecha = d := fun h => hk (hd.trans h.symm)
        have hdf : ¬ d = f.fecha := fun h => hk (hd.trans h)
        simp [insertFestivo, alookup, winnerStep, hk, hd, hfd, hdf]
      · simp [insertFestivo, alookup, winnerStep, hk, hd, alookup_insertFestivo d f rest]

theorem alookup_foldl (d : String) :
    ∀ (l : List Festivo) (acc : List (String × Festivo)),
      alookup d (List.foldl insertFestivo acc l) =
        List.foldl (winnerStep d) (alookup d acc) l
  | [], _ => rfl
  | f :: fs, acc => by
    simp only [List.foldl_cons]
    rw [alookup_foldl d fs (insertFestivo acc f), alookup_insertFestivo]

theorem alookup_dedup (d : String) (l : List Festivo) :
    alookup d (dedupFestivos l) = winner d l :=
  alookup_foldl d l []

theorem fecha_of_mem_insertFestivo (f : Festivo) :
    ∀ acc, (∀ kv ∈ acc, (Prod.snd kv).fecha = kv.1) →
      ∀ kv ∈ insertFestivo acc f, (Prod.snd kv).fecha = kv.1
  | [], _, kv, hkv => by
    simp only [insertFestivo, List.mem_singleton] at hkv
    subst hkv
    rfl
  | (k, g) :: rest, hacc, kv, hkv => by
    simp only [insertFestivo] at hkv
    by_cases hk : k = f.fecha
    · rw [if_pos hk] at hkv
      by_cases hp : prioF g < prioF f
      · rw [if_pos hp] at hkv
        rcases List.mem_cons.1 hkv with rfl | h
        · exact hk.symm
        · exact hacc _ (List.mem_cons_of_mem _ h)
      · rw [if_neg hp] at hkv
        exact hacc _ hkv
    · rw [if_neg hk] at hkv
      rcases List.mem_cons.1 hkv with rfl | h
      · exact hacc _ (List.mem_cons_self _ _)
      · exact fecha_of_mem_insertFestivo f rest
          (fun kv hkv => hacc _ (List.mem_cons_of_mem _ hkv)) _ h

theorem fecha_of_mem_foldl :
    ∀ (l : List Festivo) (acc : List (String × Festivo)),
      (∀ kv ∈ acc, (Prod.snd kv).fecha = kv.1) →
      ∀ kv ∈ List.foldl insertFestivo acc l, (Prod.snd kv).fecha = kv.1
  | [], _, hacc => hacc
  | f :: fs, acc, hacc =>
    fecha_of_mem_foldl fs (insertFestivo acc f) (fecha_of_mem_insertFestivo f acc hacc)

theorem fecha_of_mem_dedup (l : List Festivo) :
    ∀ kv ∈ dedupFestivos l, (Prod.snd kv).fecha = kv.1 :=
  fecha_of_mem_foldl l [] (by intro kv h; exact absurd h (List.not_mem_nil kv))

theorem keysOf_insertFestivo (f : Festivo) :
    ∀ acc, keysOf (insertFestivo acc f) =
      if f.fecha ∈ keysOf acc then keysOf acc else keysOf acc ++ [f.fecha]
  | [] => by simp [insertFestivo, keysOf]
  | (k, g) :: rest => by
    by_cases hk : k = f.fecha
    · subst hk
      have hmem : f.fecha ∈ keysOf ((f.fecha, g) :: rest) := List.mem_cons_self _ _
      rw [if_pos hmem]
      by_cases hp : prioF g < prioF f <;>
        simp [insertFestivo, keysOf, hp]
    · have hne : f.fecha ≠ k := fun h => hk h.symm
      simp only [insertFestivo, if_neg hk]
      have h1 : keysOf ((k, g) :: insertFestivo rest f) = k :: keysOf (insertFestivo rest f) := rfl
      have h2 : keysOf ((k, g) :: rest) = k :: keysOf rest := rfl
      rw [h1, h2, keysOf_insertFestivo f rest]
      by_cases hmem : f.fecha ∈ keysOf rest
      · rw [if_pos hmem, if_pos (List.mem_cons_of_mem _ hmem)]
      · rw [if_neg hmem, if_neg (by
          intro hc
          rcases List.mem_cons.1 hc with h | h
          · exact hne h
          · exact hmem h)]
        rfl

theorem nodup_keysOf_insertFestivo (f : Festivo) (acc : List (String × Festivo))
    (h : (keysOf acc).Nodup) : (keysOf (insertFestivo acc f)).Nodup := by
  rw [keysOf_insertFestivo]
  by_cases hmem : f.fecha ∈ keysOf acc
  · rw [if_pos hmem]
    exact h
  · rw [if_neg hmem]
    exact h.append (List.nodup_singleton _)
      (fun x hx hx' => hmem (by
        rcases List.mem_singleton.1 hx' with rfl
        exact hx))

theorem nodup_keysOf_foldl :
    ∀ (l : List Festivo) (acc : List (String × Festivo)),
      (keysOf acc).Nodup → (keysOf (List.foldl insertFestivo acc l)).Nodup
  | [], _, h => h
  | f :: fs, acc, h =>
    nodup_keysOf_foldl fs (insertFestivo acc f) (nodup_keysOf_insertFestivo f acc h)

theorem nodup_keysOf_dedup (l : List Festivo) : (keysOf (dedupFestivos l)).Nodup :=
  nodup_keysOf_foldl l [] List.nodup_nil

theorem alookup_eq_none_iff (d : String) :
    ∀ acc, alookup d acc = none ↔ d ∉ keysOf acc
  | [] => by simp [alookup, keysOf]
  | (k, v) :: rest => by
    have h2 : keysOf ((k, v) :: rest) = k :: keysOf rest := rfl
    rw [h2]
    simp only [alookup, List.mem_cons]
    by_cases hk : k = d
    · subst hk
      simp
    · rw [if_neg hk, alookup_eq_none_iff d rest]
      have : ¬ d = k := fun h => hk h.symm
      simp [this]

theorem filter_values_eq (d : String) :
    ∀ acc, (∀ kv ∈ acc, (Prod.snd kv).fecha = kv.1) → (keysOf acc).Nodup →
      (acc.map Prod.snd).filter (fun f => f.fecha == d) = (alookup d acc).toList
  | [], _, _ => rfl
  | (k, v) :: rest, hinv, hnd => by
    have hv : v.fecha = k := hinv _ (List.mem_cons_self _ _)
    have hinv' : ∀ kv ∈ rest, (Prod.snd kv).fecha = kv.1 :=
      fun kv hkv => hinv _ (List.mem_cons_of_mem _ hkv)
    have hnd' : (keysOf rest).Nodup := (List.nodup_cons.1 hnd).2
    have hknotin : k ∉ keysOf rest := (List.nodup_cons.1 hnd).1
    simp only [List.map_cons, List.filter_cons, alookup]
    by_cases hk : k = d
    · rw [if_pos (by simp [hv, hk]), if_pos hk]
      have hrest : alookup d rest = none :=
        (alookup_eq_none_iff d rest).2 (by rw [← hk]; exact hknotin)
      rw [filter_values_eq d rest hinv' hnd', hrest]
      rfl
    · rw [if_neg (by simp [hv, hk]), if_neg hk]
      exact filter_values_eq d rest hinv' hnd'

theorem foldl_winnerStep_filter (d : String) :
    ∀ (l : List Festivo) (cur : Option Festivo),
      List.foldl (winnerStep d) cur l =
        List.foldl (winnerStep d) cur (l.filter (fun f => f.fecha == d))
  | [], _ => rfl
  | f :: fs, cur => by
    simp only [List.filter_cons]
    by_cases h : f.fecha = d
    · rw [if_pos (by simp [h])]
      simp only [List.foldl_cons]
      exact foldl_winnerStep_filter d fs _
    · rw [if_neg (by simp [h])]
      simp only [List.foldl_cons]
      have hstep : winnerStep d cur f = cur := by simp [winnerStep, h]
      rw [hstep]
      exact foldl_winnerStep_filter d fs cur

theorem foldl_winnerStep_some (d : String) :
    ∀ (l : List Festivo) (g : Festivo), (∀ f ∈ l, f.fecha = d) →
      List.foldl (winnerStep d) (some g) l = some (keepMax g l)
  | [], _, _ => rfl
  | f :: fs, g, hall => by
    have hf : f.fecha = d := hall f (List.mem_cons_self _ _)
    have hstep : winnerStep d (some g) f = some (if prioF g < prioF f then f else g) := by
      simp only [winnerStep, if_pos hf]
      by_cases hp : prioF g < prioF f
      · rw [if_pos hp, if_pos hp]
      · rw [if_neg hp, if_neg hp]
    simp only [List.foldl_cons, keepMax]
    rw [hstep]
    exact foldl_winnerStep_some d fs _ (fun f' hf' => hall _ (List.mem_cons_of_mem _ hf'))

theorem keepMax_mem : ∀ (l : List Festivo) (cur : Festivo), keepMax cur l ∈ cur :: l
  | [], cur => List.mem_singleton.2 rfl
  | f :: fs, cur => by
    simp only [keepMax]
    have h := keepMax_mem fs (if prioF cur < prioF f then f else cur)
    rcases List.mem_cons.1 h with he | hm
    · rw [he]
      by_cases hp : prioF cur < prioF f
      · rw [if_pos hp]
        exact List.mem_cons_of_mem _ (List.mem_cons_self _ _)
      · rw [if_neg hp]
        exact List.mem_cons_self _ _
    · exact List.mem_cons_of_mem _ (List.mem_cons_of_mem _ hm)

theorem keepMax_le :
    ∀ (l : List Festivo) (cur : Festivo), ∀ f ∈ cur :: l, prioF f ≤ prioF (keepMax cur l)
  | [], cur, f, hf => by
    rcases List.mem_cons.1 hf with rfl | h
    · exact Nat.le_refl _
    · exact absurd h (List.not_mem_nil f)
  | g :: gs, cur, f, hf => by
    simp only [keepMax]
    have hcur : prioF cur ≤ prioF (if prioF cur < prioF g then g else cur) := by
      by_cases hp : prioF cur < prioF g
      · rw [if_pos hp]
        exact Nat.le_of_lt hp
      · rw [if_neg hp]
    have hg : prioF g ≤ prioF (if prioF cur < prioF g then g else cur) := by
      by_cases hp : prioF cur < prioF g
      · rw [if_pos hp]
      · rw [if_neg hp]
        exact Nat.le_of_not_lt hp
    have hrec := keepMax_le gs (if prioF cur < prioF g then g else cur) _
      (List.mem_cons_self _ _)
    rcases List.mem_cons.1 hf with rfl | h
    · exact hcur.trans hrec
    · rcases List.mem_cons.1 h with rfl | h2
      · exact hg.trans hrec
      · exact keepMax_le gs _ f (List.mem_cons_of_mem _ h2)

theorem keepMax_find? :
    ∀ (l : List Festivo) (cur : Festivo),
      (cur :: l).find? (fun f => prioF f == prioF (keepMax cur l)) = some (keepMax cur l)
  | [], cur => by simp [keepMax, List.find?]
  | g :: gs, cur => by
    by_cases hp : prioF cur < prioF g
    · have hkm : keepMax cur (g :: gs) = keepMax g gs := by
        simp only [keepMax, if_pos hp]
      rw [hkm]
      have hglekm : prioF g ≤ prioF (keepMax g gs) :=
        keepMax_le gs g g (List.mem_cons_self _ _)
      have hcurne : ¬ ((prioF cur == prioF (keepMax g gs)) = true) := by
        have hne : prioF cur ≠ prioF (keepMax g gs) :=
          Nat.ne_of_lt (lt_of_lt_of_le hp hglekm)
        simp [hne]
      have hskip :
          List.find? (fun f => prioF f == prioF (keepMax g gs)) (cur :: g :: gs) =
            List.find? (fun f => prioF f == prioF (keepMax g gs)) (g :: gs) :=
        List.find?_cons_of_neg _ hcurne
      rw [hskip]
      exact keepMax_find? gs g
    · have hkm : keepMax cur (g :: gs) = keepMax cur gs := by
        simp only [keepMax, if_neg hp]
      rw [hkm]
      have ih := keepMax_find? gs cur
      by_cases hq : (prioF cur == prioF (keepMax cur gs)) = true
      · have h1 :
            List.find? (fun f => prioF f == prioF (keepMax cur gs)) (cur :: g :: gs) =
              some cur :=
          List.find?_cons_of_pos _ hq
        have h2 :
            List.find? (fun f => prioF f == prioF (keepMax cur gs)) (cur :: gs) =
              some cur :=
          List.find?_cons_of_pos _ hq
        rw [h1, ← h2]
        exact ih
      · have hskip1 :
            List.find? (fun f => prioF f == prioF (keepMax cur gs)) (cur :: gs) =
              List.find? (fun f => prioF f == prioF (keepMax cur gs)) gs :=
          List.find?_cons_of_neg _ hq
        rw [hskip1] at ih
        have hgle : prioF g ≤ prioF cur := Nat.le_of_not_lt hp
        have hcurle : prioF cur ≤ prioF (keepMax cur gs) :=
          keepMax_le gs cur cur (List.mem_cons_self _ _)
        have hcurlt : prioF cur < prioF (keepMax cur gs) :=
          lt_of_le_of_ne hcurle (fun h => hq (by simp [h]))
        have hgne : ¬ ((prioF g == prioF (keepMax cur gs)) = true) := by
          have hne : prioF g ≠ prioF (keepMax cur gs) :=
            Nat.ne_of_lt (lt_of_le_of_lt hgle hcurlt)
          simp [hne]
        have hskip2 :
            List.find? (fun f => prioF f == prioF (keepMax cur gs)) (cur :: g :: gs) =
              List.find? (fun f => prioF f == prioF (keepMax cur gs)) (g :: gs) :=
          List.find?_cons_of_neg _ hq
        have hskip3 :
            List.find? (fun f => prioF f == prioF (keepMax cur gs)) (g :: gs) =
              List.find? (fun f => prioF f == prioF (keepMax cur gs)) gs :=
          List.find?_cons_of_neg _ hgne
        rw [hskip2, hskip3]
        exact ih

/-! ### Resolver-level lemmas -/

theorem winner_spec (todos : List Festivo) (d : String) (f0 : Festivo) (fs : List Festivo)
    (hfil : todos.filter (fun f => f.fecha == d) = f0 :: fs) :
    winner d todos = some (keepMax f0 fs) := by
  have hall : ∀ f ∈ f0 :: fs, f.fecha = d := by
    intro f hf
    have hmem : f ∈ todos.filter (fun f => f.fecha == d) := hfil ▸ hf
    have hb := (List.mem_filter.1 hmem).2
    exact eq_of_beq hb
  unfold winner
  rw [foldl_winnerStep_filter d todos none, hfil]
  simp only [List.foldl_cons]
  have hstep : winnerStep d none f0 = some f0 := by
    simp [winnerStep, hall f0 (List.mem_cons_self _ _)]
  rw [hstep]
  exact foldl_winnerStep_some d fs f0 (fun f hf => hall _ (List.mem_cons_of_mem _ hf))

theorem mergeFestivos_filter (nacional autonomicos locales : List Festivo) (d : String) :
    (mergeFestivos nacional autonomicos locales).filter (fun f => f.fecha == d) =
      (winner d (nacional ++ autonomicos ++ locales)).toList := by
  have hperm :=
    (sortByFecha_perm ((dedupFestivos (nacional ++ autonomicos ++ locales)).map Prod.snd)).filter
      (fun f => f.fecha == d)
  have heq := filter_values_eq d (dedupFestivos (nacional ++ autonomicos ++ locales))
    (fecha_of_mem_dedup _) (nodup_keysOf_dedup _)
  rw [alookup_dedup] at heq
  rw [heq] at hperm
  cases hw : winner d (nacional ++ autonomicos ++ locales) with
  | none =>
    rw [hw] at hperm
    exact List.Perm.eq_nil hperm
  | some w =>
    rw [hw] at hperm
    exact List.perm_singleton.1 hperm

theorem resolve_sublist_merge (ccaa : String) (year : Int)
    (nacional autonomicos locales : List Festivo) :
    List.Sublist (resolve_calendar ccaa year nacional autonomicos locales)
      (mergeFestivos nacional autonomicos locales) := by
  unfold resolve_calendar
  by_cases h : (festivosSustituidos ccaa year).isEmpty = true
  · rw [if_pos h]
  · rw [if_neg h]
    exact List.filter_sublist _

theorem contains_eq_false_of_not_mem {l : List String} {a : String} (h : a ∉ l) :
    l.contains a = false := by
  cases hc : l.contains a
  · rfl
  · exact absurd (List.elem_iff.1 hc) h

theorem insertFestivo_append (f : Festivo) :
    ∀ acc, f.fecha ∉ keysOf acc → insertFestivo acc f = acc ++ [(f.fecha, f)]
  | [], _ => rfl
  | (k, g) :: rest, h => by
    have hk : ¬ k = f.fecha := by
      intro hkk
      exact h (by rw [← hkk]; exact List.mem_cons_self _ _)
    have hrest : f.fecha ∉ keysOf rest := fun hc => h (List.mem_cons_of_mem _ hc)
    simp only [insertFestivo, if_neg hk, List.cons_append]
    rw [insertFestivo_append f rest hrest]

theorem dedup_of_nodup :
    ∀ (l : List Festivo) (acc : List (String × Festivo)),
      (keysOf acc ++ l.map Festivo.fecha).Nodup →
      List.foldl insertFestivo acc l = acc ++ l.map (fun f => (f.fecha, f))
  | [], acc, _ => by simp
  | f :: fs, acc, h => by
    have hdisj := List.disjoint_of_nodup_append h
    have hnotin : f.fecha ∉ keysOf acc := by
      intro hc
      exact hdisj hc (by simp)
    simp only [List.foldl_cons]
    rw [insertFestivo_append f acc hnotin]
    have hkeys : keysOf (acc ++ [(f.fecha, f)]) = keysOf acc ++ [f.fecha] := by
      simp [keysOf]
    have hnd : (keysOf (acc ++ [(f.fecha, f)]) ++ fs.map Festivo.fecha).Nodup := by
      rw [hkeys, List.append_assoc, List.singleton_append]
      simpa using h
    rw [dedup_of_nodup fs (acc ++ [(f.fecha, f)]) hnd]
    simp

theorem mergeFestivos_locales (locales : List Festivo)
    (h : (locales.map Festivo.fecha).Nodup) :
    mergeFestivos [] [] locales = sortByFecha locales := by
  have hded : dedupFestivos locales = locales.map (fun f => (f.fecha, f)) :=
    dedup_of_nodup locales [] (by simpa [keysOf] using h)
  show sortByFecha ((dedupFestivos ([] ++ [] ++ locales)).map Prod.snd) = sortByFecha locales
  have hnil : ([] ++ [] ++ locales : List Festivo) = locales := by simp
  rw [hnil, hded, List.map_map]
  have hid : (locales.map (Prod.snd ∘ fun f => (f.fecha, f))) = locales := by
    have hfun : (Prod.snd ∘ fun f : Festivo => (f.fecha, f)) = fun f => f := rfl
    rw [hfun, List.map_id']
  rw [hid]

/-! ### Claims about the Merge and Substitution Resolver -/

/-- C2: for every set of input layers, the list of records returned by
the Resolver contains no two records with the same date, and is sorted
ascending by date. -/
theorem c2_fechas_unicas_ordenadas :
    ∀ (ccaa : String) (year : Int) (nacional autonomicos locales : List Festivo),
      ((resolve_calendar ccaa year nacional autonomicos locales).map Festivo.fecha).Nodup ∧
        (resolve_calendar ccaa year nacional autonomicos locales).Pairwise fechaLe := by
  intro ccaa year n r l
  have hmapeq : ((dedupFestivos (n ++ r ++ l)).map Prod.snd).map Festivo.fecha =
      keysOf (dedupFestivos (n ++ r ++ l)) := by
    rw [List.map_map]
    exact List.map_congr_left (fun kv hkv => fecha_of_mem_dedup _ kv hkv)
  have hnodupvals :
      (((dedupFestivos (n ++ r ++ l)).map Prod.snd).map Festivo.fecha).Nodup := by
    rw [hmapeq]
    exact nodup_keysOf_dedup _
  have hmerge_nodup : ((mergeFestivos n r l).map Festivo.fecha).Nodup := by
    have hp := (sortByFecha_perm ((dedupFestivos (n ++ r ++ l)).map Prod.snd)).map Festivo.fecha
    exact hp.nodup_iff.2 hnodupvals
  have hmerge_pw : (mergeFestivos n r l).Pairwise fechaLe :=
    sortByFecha_pairwise _
  have hsub := resolve_sublist_merge ccaa year n r l
  exact ⟨List.Nodup.sublist (hsub.map Festivo.fecha) hmerge_nodup, hmerge_pw.sublist hsub⟩

/-- C1: when several input records share a date, the Resolver keeps
exactly one of them — a record of that date, of maximal jurisdiction
priority (`local` 3 > `nacional` 2 > `autonomico` 1), and the first
record of that maximal priority in concatenated input order
(`find?` over the same-date records); this as long as the date is not
one removed by a substitution rule. -/
theorem c1_merge_prioridad :
    ∀ (ccaa : String) (year : Int) (nacional autonomicos locales : List Festivo) (d : String),
      (∃ f ∈ nacional ++ autonomicos ++ locales, f.fecha = d) →
      d ∉ festivosSustituidos ccaa year →
      prioridadDe "local" > prioridadDe "nacional" ∧
        prioridadDe "nacional" > prioridadDe "autonomico" ∧
        ∃ w,
          (resolve_calendar ccaa year nacional autonomicos locales).filter
              (fun f => f.fecha == d) = [w] ∧
            w ∈ nacional ++ autonomicos ++ locales ∧
            w.fecha = d ∧
            (∀ f ∈ nacional ++ autonomicos ++ locales, f.fecha = d → prioF f ≤ prioF w) ∧
            ((nacional ++ autonomicos ++ locales).filter (fun f => f.fecha == d)).find?
                (fun f => prioF f == prioF w) = some w := by
  intro ccaa year n r l d hmem hsub
  refine ⟨by decide, by decide, ?_⟩
  obtain ⟨f1, hf1mem, hf1d⟩ := hmem
  obtain ⟨f0, fs, hfil⟩ :
      ∃ f0 fs, (n ++ r ++ l).filter (fun f => f.fecha == d) = f0 :: fs := by
    cases hq : (n ++ r ++ l).filter (fun f => f.fecha == d) with
    | nil =>
      have hin : f1 ∈ (n ++ r ++ l).filter (fun f => f.fecha == d) :=
        List.mem_filter.2 ⟨hf1mem, by simp [hf1d]⟩
      rw [hq] at hin
      exact absurd hin (List.not_mem_nil f1)
    | cons a b => exact ⟨a, b, rfl⟩
  have hwin : winner d (n ++ r ++ l) = some (keepMax f0 fs) := winner_spec _ d f0 fs hfil
  have hmf : (mergeFestivos n r l).filter (fun f => f.fecha == d) = [keepMax f0 fs] := by
    rw [mergeFestivos_filter, hwin]
    rfl
  have hrf : (resolve_calendar ccaa year n r l).filter (fun f => f.fecha == d) =
      [keepMax f0 fs] := by
    unfold resolve_calendar
    by_cases hem : (festivosSustituidos ccaa year).isEmpty = true
    · rw [if_pos hem]
      exact hmf
    · rw [if_neg hem, List.filter_filter]
      have hcong : ∀ a ∈ mergeFestivos n r l,
          ((a.fecha == d) && !((festivosSustituidos ccaa year).contains a.fecha)) =
            (a.fecha == d) := by
        intro a _
        cases hb : (a.fecha == d) with
        | false => simp
        | true =>
          have ha : a.fecha = d := eq_of_beq hb
          rw [ha, contains_eq_false_of_not_mem hsub]
          rfl
      rw [List.filter_congr hcong]
      exact hmf
  have hwfil : keepMax f0 fs ∈ (n ++ r ++ l).filter (fun f => f.fecha == d) :=
    hfil ▸ keepMax_mem fs f0
  have hwmem : keepMax f0 fs ∈ n ++ r ++ l := List.mem_of_mem_filter hwfil
  have hwd : (keepMax f0 fs).fecha = d := eq_of_beq (List.mem_filter.1 hwfil).2
  refine ⟨keepMax f0 fs, hrf, hwmem, hwd, ?_, ?_⟩
  · intro f hf hfd
    have hin : f ∈ (n ++ r ++ l).filter (fun f => f.fecha == d) :=
      List.mem_filter.2 ⟨hf, by simp [hfd]⟩
    rw [hfil] at hin
    exact keepMax_le fs f0 f hin
  · rw [hfil]
    exact keepMax_find? fs f0

/-- Concrete national layer used by the C1 witness. -/
def testigoNacional : List Festivo := [⟨"2026-01-01", some "nacional", "Año Nuevo"⟩]

/-- Concrete local layer used by the C1 witness. -/
def testigoLocal : List Festivo := [⟨"2026-01-01", some "local", "Fiesta local"⟩]

/-- C1 witness: a national and a local record on 2026-01-01; the local
record is the unique record kept at that date. -/
theorem c1_merge_prioridad_testigo :
    (∃ f ∈ testigoNacional ++ ([] : List Festivo) ++ testigoLocal, f.fecha = "2026-01-01") ∧
      "2026-01-01" ∉ festivosSustituidos "madrid" 2026 ∧
      (prioridadDe "local" > prioridadDe "nacional" ∧
        prioridadDe "nacional" > prioridadDe "autonomico" ∧
        ∃ w,
          (resolve_calendar "madrid" 2026 testigoNacional [] testigoLocal).filter
              (fun f => f.fecha == "2026-01-01") = [w] ∧
            w ∈ testigoNacional ++ ([] : List Festivo) ++ testigoLocal ∧
            w.fecha = "2026-01-01" ∧
            (∀ f ∈ testigoNacional ++ ([] : List Festivo) ++ testigoLocal,
              f.fecha = "2026-01-01" → prioF f ≤ prioF w) ∧
            ((testigoNacional ++ ([] : List Festivo) ++ testigoLocal).filter
                (fun f => f.fecha == "2026-01-01")).find?
                (fun f => prioF f == prioF w) = some w) :=
  ⟨by decide, by decide,
    c1_merge_prioridad "madrid" 2026 testigoNacional [] testigoLocal "2026-01-01"
      (by decide) (by decide)⟩

/-- C10 (implicit): for canarias 2025 the substitution step removes
every record dated 2025-10-12 from the Resolver output, whatever its
jurisdiction kind; in particular a local record at that date — even one
that won the same-date priority contest — is removed. -/
theorem c10_eliminacion_por_fecha :
    (∀ (nacional autonomicos locales : List Festivo),
        (resolve_calendar "canarias" 2025 nacional autonomicos locales).filter
          (fun f => f.fecha == "2025-10-12") = []) ∧
      resolve_calendar "canarias" 2025 [] []
          [⟨"2025-01-01", some "local", "Año Nuevo"⟩,
           ⟨"2025-10-12", some "local", "Fiesta local"⟩] =
        [⟨"2025-01-01", some "local", "Año Nuevo"⟩] := by
  constructor
  · intro n r l
    unfold resolve_calendar
    rw [if_neg (by decide), List.filter_filter]
    refine List.filter_eq_nil_iff.2 ?_
    intro a _
    by_cases hfe : a.fecha = "2025-10-12"
    · rw [hfe]
      decide
    · have hb : (a.fecha == "2025-10-12") = false := by simp [hfe]
      simp [hb]
  · decide

/-- C3: for canarias 2025 (substituted date 2025-10-12, replacement
2025-05-30) the Resolver output omits every record at the substituted
date, while a regional-layer record at the replacement date — the only
input record at that date — is retained. -/
theorem c3_sustitucion_canarias :
    ∀ (nacional autonomicos locales : List Festivo) (g : Festivo),
      g ∈ autonomicos →
      g.fecha = "2025-05-30" →
      (∀ f ∈ nacional ++ autonomicos ++ locales, f.fecha = "2025-05-30" → f = g) →
      (∃ f ∈ nacional, f.fecha = "2025-10-12") →
      (∀ f ∈ resolve_calendar "canarias" 2025 nacional autonomicos locales,
          f.fecha ≠ "2025-10-12") ∧
        g ∈ resolve_calendar "canarias" 2025 nacional autonomicos locales := by
  intro n r l g hgr hgf huniq _hnat
  constructor
  · intro f hf hfd
    unfold resolve_calendar at hf
    rw [if_neg (by decide)] at hf
    have hq := (List.mem_filter.1 hf).2
    rw [hfd] at hq
    exact absurd hq (by decide)
  · have hgtodos : g ∈ n ++ r ++ l :=
      List.mem_append_left l (List.mem_append_right n hgr)
    have hgfil : g ∈ (n ++ r ++ l).filter (fun f => f.fecha == "2025-05-30") :=
      List.mem_filter.2 ⟨hgtodos, by simp [hgf]⟩
    obtain ⟨f0, fs, hfil⟩ :
        ∃ f0 fs, (n ++ r ++ l).filter (fun f => f.fecha == "2025-05-30") = f0 :: fs := by
      cases hq : (n ++ r ++ l).filter (fun f => f.fecha == "2025-05-30") with
      | nil =>
        rw [hq] at hgfil
        exact absurd hgfil (List.not_mem_nil g)
      | cons a b => exact ⟨a, b, rfl⟩
    have hwin : winner "2025-05-30" (n ++ r ++ l) = some (keepMax f0 fs) :=
      winner_spec _ _ f0 fs hfil
    have hkeq : keepMax f0 fs = g := by
      have hmemfil : keepMax f0 fs ∈ (n ++ r ++ l).filter (fun f => f.fecha == "2025-05-30") :=
        hfil ▸ keepMax_mem fs f0
      have hmemtodos := List.mem_of_mem_filter hmemfil
      have hfecha := eq_of_beq (List.mem_filter.1 hmemfil).2
      exact huniq _ hmemtodos hfecha
    have hmf : (mergeFestivos n r l).filter (fun f => f.fecha == "2025-05-30") = [g] := by
      rw [mergeFestivos_filter, hwin, hkeq]
      rfl
    have hgmerged : g ∈ mergeFestivos n r l := by
      have hgm : g ∈ (mergeFestivos n r l).filter (fun f => f.fecha == "2025-05-30") := by
        rw [hmf]
        exact List.mem_singleton.2 rfl
      exact List.mem_of_mem_filter hgm
    unfold resolve_calendar
    rw [if_neg (by decide)]
    refine List.mem_filter.2 ⟨hgmerged, ?_⟩
    rw [hgf]
    decide

/-- Concrete layers used by the C3 witness. -/
def testigoNacionalCanarias : List Festivo :=
  [⟨"2025-10-12", some "nacional", "Fiesta Nacional"⟩]

/-- Concrete regional layer used by the C3 witness. -/
def testigoRegionalCanarias : List Festivo :=
  [⟨"2025-05-30", some "autonomico", "Dia de Canarias"⟩]

/-- C3 witness: the canarias-2025 scenario with the national record on
the substituted date and the regional replacement on 2025-05-30. -/
theorem c3_sustitucion_canarias_testigo :
    (⟨"2025-05-30", some "autonomico", "Dia de Canarias"⟩ : Festivo) ∈ testigoRegionalCanarias ∧
      (⟨"2025-05-30", some "autonomico", "Dia de Canarias"⟩ : Festivo).fecha = "2025-05-30" ∧
      (∀ f ∈ testigoNacionalCanarias ++ testigoRegionalCanarias ++ ([] : List Festivo),
        f.fecha = "2025-05-30" → f = ⟨"2025-05-30", some "autonomico", "Dia de Canarias"⟩) ∧
      (∃ f ∈ testigoNacionalCanarias, f.fecha = "2025-10-12") ∧
      ((∀ f ∈ resolve_calendar "canarias" 2025 testigoNacionalCanarias testigoRegionalCanarias
            ([] : List Festivo), f.fecha ≠ "2025-10-12") ∧
        (⟨"2025-05-30", some "autonomico", "Dia de Canarias"⟩ : Festivo) ∈
          resolve_calendar "canarias" 2025 testigoNacionalCanarias testigoRegionalCanarias
            ([] : List Festivo)) :=
  ⟨by decide, by decide, by decide, by decide,
    c3_sustitucion_canarias testigoNacionalCanarias testigoRegionalCanarias ([] : List Festivo)
      ⟨"2025-05-30", some "autonomico", "Dia de Canarias"⟩ (by decide) (by decide) (by decide)
      (by decide)⟩

/-- C8 counterexample: two local records on the same date (and no other
layer) — the Resolver deduplicates, so it does not return exactly the
local records sorted by date. -/
theorem c8_contraejemplo :
    resolve_calendar "madrid" 2026 [] []
        [⟨"2026-03-01", some "local", "Fiesta A"⟩, ⟨"2026-03-01", some "local", "Fiesta B"⟩] ≠
      sortByFecha
        [⟨"2026-03-01", some "local", "Fiesta A"⟩, ⟨"2026-03-01", some "local", "Fiesta B"⟩] := by
  decide

/-- C8 (amended): with empty national and regional layers, a non-empty
local layer whose records carry pairwise-distinct dates, and a
(region, year) with no substitution rule, the Resolver returns exactly
the local records sorted ascending by date (and never an error: the
model is total). -/
theorem c8_capa_local_sola :
    ∀ (ccaa : String) (year : Int) (locales : List Festivo),
      locales ≠ [] →
      (locales.map Festivo.fecha).Nodup →
      festivosSustituidos ccaa year = [] →
      resolve_calendar ccaa year [] [] locales = sortByFecha locales ∧
        List.Perm (resolve_calendar ccaa year [] [] locales) locales ∧
        (resolve_calendar ccaa year [] [] locales).Pairwise fechaLe := by
  intro ccaa year loc _hne hnodup hsubs
  have hres : resolve_calendar ccaa year [] [] loc = mergeFestivos [] [] loc := by
    unfold resolve_calendar
    rw [hsubs]
    rfl
  rw [hres, mergeFestivos_locales loc hnodup]
  exact ⟨rfl, sortByFecha_perm loc, sortByFecha_pairwise loc⟩

/-- Concrete unsorted local layer used by the C8 witness. -/
def testigoLocalSolo : List Festivo :=
  [⟨"2026-07-25", some "local", "Patron"⟩, ⟨"2026-01-20", some "local", "San Sebastián"⟩]

/-- C8 witness: two distinct-date local records, returned sorted. -/
theorem c8_capa_local_sola_testigo :
    testigoLocalSolo ≠ [] ∧
      (testigoLocalSolo.map Festivo.fecha).Nodup ∧
      festivosSustituidos "madrid" 2026 = [] ∧
      resolve_calendar "madrid" 2026 [] [] testigoLocalSolo = sortByFecha testigoLocalSolo :=
  ⟨by decide, by decide, by decide,
    (c8_capa_local_sola "madrid" 2026 testigoLocalSolo (by decide) (by decide) (by decide)).1⟩

/-! ### Claims about the Relative Date Calculator and the Fixed Date Parser -/

/-- C4: a Pentecost Monday expression resolves to Easter + 50 for every
year — with Pentecost Sunday and Tuesday at Easter + 49 and + 51 — and
for 2026 (Easter = 2026-04-05) the resolved date is 2026-05-25. -/
theorem c4_pentecostes :
    (∀ y : Int,
        calcular_pentecostes y "lunes" = some (addDays (calcular_pascua y) 50) ∧
          calcular_pentecostes y "domingo" = some (addDays (calcular_pascua y) 49) ∧
          calcular_pentecostes y "martes" = some (addDays (calcular_pascua y) 51)) ∧
      calcular_pascua 2026 = ⟨2026, 4, 5⟩ ∧
      calcular_liturgico 2026 "Lunes de Pentecostés" =
        some (⟨2026, 5, 25⟩, "liturgico_pentecostes: lunes") ∧
      calcular_pentecostes 2026 "domingo" = some ⟨2026, 5, 24⟩ ∧
      calcular_pentecostes 2026 "martes" = some ⟨2026, 5, 26⟩ :=
  ⟨fun _ => ⟨rfl, rfl, rfl⟩, by decide, by decide, by decide, by decide⟩

/-- C5 (code bug evidence): the carnival table maps `martes` to offset 0
before Ash Wednesday, so "Martes de Carnaval" 2026 resolves to
2026-02-18 — Ash Wednesday itself (Easter − 46), a Wednesday
(`pyWeekday` 2, while martes is weekday 1) — instead of the Tuesday
immediately before it, contradicting the claim and the source comments
(`Martes de Carnaval (último día)`, a day before Miércoles de
Ceniza). -/
theorem c5_carnaval_martes_es_miercoles :
    calcular_carnaval 2026 "martes" = some ⟨2026, 2, 18⟩ ∧
      addDays (calcular_pascua 2026) (-46) = ⟨2026, 2, 18⟩ ∧
      pyWeekday 2026 2 18 = 2 ∧
      DIAS_SEMANA "martes" = some 1 ∧
      DIAS_SEMANA "miércoles" = some 2 ∧
      calcular_liturgico 2026 "Martes de Carnaval" =
        some (⟨2026, 2, 18⟩, "liturgico_carnaval: martes") := by
  decide

/-- C6 counterexample: the liturgical family does not resolve Holy
Thursday, Good Friday, or Easter Monday expressions — they fall through
to NotResolved (`none`), not to Easter − 3 / − 2 / + 1. -/
theorem c6_contraejemplo :
    calcular_liturgico 2026 "jueves santo" = none ∧
      calcular_liturgico 2026 "viernes santo" = none ∧
      calcular_liturgico 2026 "lunes de pascua" = none := by
  decide

/-- C6 (amended): the liturgical family recognises only carnival,
Pentecost, Ascension, and Corpus Christi expressions; Holy Thursday,
Good Friday, and Easter Monday expressions are not recognised and
return NotResolved for every year. -/
theorem c6_familias_liturgicas :
    ∀ y : Int,
      calcular_liturgico y "jueves santo" = none ∧
        calcular_liturgico y "viernes santo" = none ∧
        calcular_liturgico y "lunes de pascua" = none ∧
        calcular_liturgico y "festividad de la ascensión" =
          some (addDays (calcular_pascua y) 39, "liturgico_ascension") ∧
        calcular_liturgico y "corpus christi" =
          some (addDays (calcular_pascua y) 60, "liturgico_corpus") :=
  fun _ => ⟨rfl, rfl, rfl, rfl, rfl⟩

/-- C9: for every year, a recognised-month expression with an invalid
day for that month — "31 de febrero", "30 de febrero" — parses to the
invalid-date failure (`none` through the `isValidDateB` test, with the
month itself recognised), never to a date, leap year or not. -/
theorem c9_fecha_invalida :
    ∀ y : Int,
      parse_fecha_espanol y "31 de febrero" = none ∧
        parse_fecha_espanol y "30 de febrero" = none ∧
        buscarFechaFija "31 de febrero".data = some (31, "febrero") ∧
        MESES_BASE "febrero" = some 2 ∧
        isValidDateB y 2 31 = false ∧
        isValidDateB y 2 30 = false := by
  intro y
  have h31 : isValidDateB y 2 31 = false := by
    cases hl : isLeapB y <;> simp [isValidDateB, daysInMonth, hl]
  have h30 : isValidDateB y 2 30 = false := by
    cases hl : isLeapB y <;> simp [isValidDateB, daysInMonth, hl]
  have hred31 : parse_fecha_espanol y "31 de febrero" =
      if isValidDateB y 2 31 then some ⟨y, 2, 31⟩ else none := rfl
  have hred30 : parse_fecha_espanol y "30 de febrero" =
      if isValidDateB y 2 30 then some ⟨y, 2, 30⟩ else none := rfl
  refine ⟨?_, ?_, by decide, by decide, h31, h30⟩
  · rw [hred31]
    simp [h31]
  · rw [hred30]
    simp [h30]

/-! ### The month grid enumerates exactly the weekday occurrences -/

theorem daysFromCivil_day (y m d : Int) :
    daysFromCivil y m d = daysFromCivil y m 1 + (d - 1) := by
  unfold daysFromCivil
  ring

theorem pyWeekday_linear (y m d : Int) :
    pyWeekday y m d = (pyWeekday y m 1 + (d - 1)) % 7 := by
  unfold pyWeekday
  rw [daysFromCivil_day y m d]
  omega

theorem firstWeekdayOfMonth_bounds (y m : Int) :
    0 ≤ firstWeekdayOfMonth y m ∧ firstWeekdayOfMonth y m < 7 := by
  unfold firstWeekdayOfMonth pyWeekday
  omega

theorem daysInMonth_pos (y m : Int) (h1 : 1 ≤ m) (h2 : m ≤ 12) :
    1 ≤ daysInMonth y m := by
  unfold daysInMonth
  interval_cases m <;> cases hl : isLeapB y <;> simp [hl]

theorem mcWeek_getD (y m : Int) (j : Nat) (c : Nat) (hc : c < 7) :
    (mcWeek y m j).getD c 0 = mcCell y m (7 * j + c) := by
  unfold mcWeek
  rw [List.getD_eq_getElem?_getD, List.getElem?_map, List.getElem?_range hc]
  rfl

theorem diasDelMesGrid_filterMap (y m w : Int) (hw0 : 0 ≤ w) (hw6 : w ≤ 6) :
    diasDelMesGrid y m w =
      (List.range (mcNumWeeks y m)).filterMap (fun j =>
        if mcCell y m (7 * j + w.toNat) = 0 then none else some (mcCell y m (7 * j + w.toNat))) := by
  unfold diasDelMesGrid monthcalendar
  rw [List.filterMap_map]
  apply List.filterMap_congr
  intro j _
  have hc : w.toNat < 7 := by omega
  simp only [Function.comp]
  rw [mcWeek_getD y m j w.toNat hc]

theorem cellF_eq_some (y m w : Int) (i : Nat) (a : Int)
    (h : (if mcCell y m (7 * i + w.toNat) = 0 then none
          else some (mcCell y m (7 * i + w.toNat))) = some a) :
    a = ((7 * i + w.toNat : Nat) : Int) - firstWeekdayOfMonth y m + 1 ∧
      1 ≤ a ∧ a ≤ daysInMonth y m := by
  by_cases hz : mcCell y m (7 * i + w.toNat) = 0
  · rw [if_pos hz] at h
    exact absurd h (by simp)
  · rw [if_neg hz] at h
    have ha := Option.some.inj h
    unfold mcCell at ha hz
    split_ifs at ha hz with hcond
    · exact ⟨by omega, by omega, by omega⟩
    · exact absurd rfl hz

theorem mem_grid_iff (y m w : Int) (hw0 : 0 ≤ w) (hw6 : w ≤ 6) (a : Int) :
    a ∈ (List.range (mcNumWeeks y m)).filterMap (fun j =>
        if mcCell y m (7 * j + w.toNat) = 0 then none
        else some (mcCell y m (7 * j + w.toNat))) ↔
      1 ≤ a ∧ a ≤ daysInMonth y m ∧ pyWeekday y m a = w := by
  have hfw := firstWeekdayOfMonth_bounds y m
  have hfw_def : firstWeekdayOfMonth y m = pyWeekday y m 1 := rfl
  have hwnat : (w.toNat : Int) = w := Int.toNat_of_nonneg hw0
  constructor
  · intro ha
    obtain ⟨j, hj, hja⟩ := List.mem_filterMap.1 ha
    obtain ⟨haval, ha1, haN⟩ := cellF_eq_some y m w j a hja
    refine ⟨ha1, haN, ?_⟩
    rw [pyWeekday_linear y m a]
    have hcast : ((7 * j + w.toNat : Nat) : Int) = 7 * (j : Int) + w := by
      push_cast
      omega
    omega
  · rintro ⟨h1, h2, h3⟩
    have hlin := pyWeekday_linear y m a
    rw [h3] at hlin
    have hq : 0 ≤ (firstWeekdayOfMonth y m + (a - 1) - w) / 7 ∧
        firstWeekdayOfMonth y m + (a - 1) - w =
          7 * ((firstWeekdayOfMonth y m + (a - 1) - w) / 7) := by
      omega
    refine List.mem_filterMap.2
      ⟨((firstWeekdayOfMonth y m + (a - 1) - w) / 7).toNat, List.mem_range.2 ?_, ?_⟩
    · unfold mcNumWeeks
      omega
    · have hcell :
          mcCell y m (7 * ((firstWeekdayOfMonth y m + (a - 1) - w) / 7).toNat + w.toNat) =
            a := by
        unfold mcCell
        have hcast :
            ((7 * ((firstWeekdayOfMonth y m + (a - 1) - w) / 7).toNat + w.toNat : Nat) : Int) =
              7 * ((firstWeekdayOfMonth y m + (a - 1) - w) / 7) + w := by
          push_cast
          omega
        rw [hcast, if_pos (by omega)]
        omega
      rw [hcell, if_neg (by omega)]

theorem pairwise_lt_filterMap {f : Nat → Option Int}
    (hmono : ∀ i j a b, i < j → f i = some a → f j = some b → a < b) :
    ∀ l : List Nat, l.Pairwise (· < ·) → (l.filterMap f).Pairwise (· < ·)
  | [], _ => by simp
  | i :: l, hpw => by
    rcases List.pairwise_cons.1 hpw with ⟨hhead, htail⟩
    rw [List.filterMap_cons]
    cases hfi : f i with
    | none => exact pairwise_lt_filterMap hmono l htail
    | some a =>
      refine List.pairwise_cons.2 ⟨?_, pairwise_lt_filterMap hmono l htail⟩
      intro b hb
      obtain ⟨j, hj, hjb⟩ := List.mem_filterMap.1 hb
      exact hmono i j a b (hhead j hj) hfi hjb

theorem pairwise_lt_grid (y m w : Int) :
    ((List.range (mcNumWeeks y m)).filterMap (fun j =>
        if mcCell y m (7 * j + w.toNat) = 0 then none
        else some (mcCell y m (7 * j + w.toNat)))).Pairwise (· < ·) := by
  refine pairwise_lt_filterMap ?_ _ (List.pairwise_lt_range _)
  intro i j a b hij hfi hfj
  obtain ⟨haval, -, -⟩ := cellF_eq_some y m w i a hfi
  obtain ⟨hbval, -, -⟩ := cellF_eq_some y m w j b hfj
  have hci : ((7 * i + w.toNat : Nat) : Int) = 7 * (i : Int) + (w.toNat : Int) := by push_cast; ring
  have hcj : ((7 * j + w.toNat : Nat) : Int) = 7 * (j : Int) + (w.toNat : Int) := by push_cast; ring
  omega

theorem pairwise_lt_spec (y m w : Int) : (diasDelMesSpec y m w).Pairwise (· < ·) := by
  unfold diasDelMesSpec
  apply List.Pairwise.sublist (List.filter_sublist _)
  have hmap : (((List.range (daysInMonth y m).toNat).map
      (fun k : Nat => (k : Int) + 1))).Pairwise (· < ·) := by
    rw [List.pairwise_map]
    exact (List.pairwise_lt_range _).imp (fun h => by omega)
  exact hmap

theorem mem_spec_iff (y m w a : Int) :
    a ∈ diasDelMesSpec y m w ↔
      1 ≤ a ∧ a ≤ daysInMonth y m ∧ pyWeekday y m a = w := by
  unfold diasDelMesSpec
  constructor
  · intro h
    obtain ⟨hmem, hbeq⟩ := List.mem_filter.1 h
    obtain ⟨k, hk, hka⟩ := List.mem_map.1 hmem
    have hk' := List.mem_range.1 hk
    subst hka
    exact ⟨by omega, by omega, eq_of_beq hbeq⟩
  · rintro ⟨h1, h2, h3⟩
    refine List.mem_filter.2
      ⟨List.mem_map.2 ⟨(a - 1).toNat, List.mem_range.2 (by omega), by omega⟩, by simp [h3]⟩

theorem diasDelMesGrid_eq_spec (y m w : Int) (hw0 : 0 ≤ w) (hw6 : w ≤ 6) :
    diasDelMesGrid y m w = diasDelMesSpec y m w := by
  rw [diasDelMesGrid_filterMap y m w hw0 hw6]
  have hpwg := pairwise_lt_grid y m w
  have hpws := pairwise_lt_spec y m w
  have hndg : ((List.range (mcNumWeeks y m)).filterMap (fun j =>
      if mcCell y m (7 * j + w.toNat) = 0 then none
      else some (mcCell y m (7 * j + w.toNat)))).Nodup :=
    hpwg.imp (fun h => Int.ne_of_lt h)
  have hnds : (diasDelMesSpec y m w).Nodup := hpws.imp (fun h => Int.ne_of_lt h)
  have hperm := (List.perm_ext_iff_of_nodup hndg hnds).2
    (fun a => (mem_grid_iff y m w hw0 hw6 a).trans (mem_spec_iff y m w a).symm)
  exact List.eq_of_perm_of_sorted hperm (hpwg.imp (fun h => Int.le_of_lt h))
    (hpws.imp (fun h => Int.le_of_lt h))

/-- C7: for a valid month and weekday, the simple-ordinal resolver
indexes the increasing list of that weekday's occurrences in the month
(`diasDelMesSpec`, proved equal to the grid-column the source
collects): the `n`-th from the front for positive `n`, the `|n|`-th
from the back for negative `n`, `none` once the ordinal exceeds the
number of occurrences; every occurrence lies inside the month and falls
on the requested weekday; and "segundo viernes de septiembre" 2026
resolves to 2026-09-11. -/
theorem c7_ordinal_simple (y m w n : Int) (hm1 : 1 ≤ m) (hm2 : m ≤ 12)
    (hw0 : 0 ≤ w) (hw6 : w ≤ 6) :
    (∀ d ∈ diasDelMesSpec y m w, 1 ≤ d ∧ d ≤ daysInMonth y m ∧ pyWeekday y m d = w) ∧
      (0 < n → obtener_nth_dia_semana_del_mes y m w n =
        ((diasDelMesSpec y m w).get? (n.toNat - 1)).map (fun d => Fecha.mk y m d)) ∧
      (0 < n → ((diasDelMesSpec y m w).length : Int) < n →
        obtener_nth_dia_semana_del_mes y m w n = none) ∧
      (n < 0 → obtener_nth_dia_semana_del_mes y m w n =
        (if -n ≤ ((diasDelMesSpec y m w).length : Int) then
          ((diasDelMesSpec y m w).get? (((diasDelMesSpec y m w).length : Int) + n).toNat).map
            (fun d => Fecha.mk y m d)
        else none)) ∧
      calcular_ordinal_simple 2026 "segundo viernes de septiembre" =
        some (⟨2026, 9, 11⟩, "ordinal_simple: segundo viernes de septiembre") := by
  have hred : obtener_nth_dia_semana_del_mes y m w n =
      (if 0 < n then
        (if n ≤ ((diasDelMesSpec y m w).length : Int) then
          ((diasDelMesSpec y m w).get? (n.toNat - 1)).map (fun d => Fecha.mk y m d)
        else none)
      else
        (if -n ≤ ((diasDelMesSpec y m w).length : Int) then
          ((diasDelMesSpec y m w).get?
              (if n = 0 then 0 else (((diasDelMesSpec y m w).length : Int) + n).toNat)).map
            (fun d => Fecha.mk y m d)
        else none)) := by
    unfold obtener_nth_dia_semana_del_mes
    rw [if_neg (not_not_intro ⟨hm1, hm2⟩), if_neg (not_not_intro ⟨hw0, hw6⟩),
      diasDelMesGrid_eq_spec y m w hw0 hw6]
  refine ⟨fun d hd => (mem_spec_iff y m w d).1 hd, ?_, ?_, ?_, by decide⟩
  · intro hn
    rw [hred, if_pos hn]
    by_cases hlen : n ≤ ((diasDelMesSpec y m w).length : Int)
    · rw [if_pos hlen]
    · rw [if_neg hlen]
      have hnone : (diasDelMesSpec y m w).get? (n.toNat - 1) = none :=
        List.get?_eq_none.2 (by omega)
      rw [hnone]
      rfl
  · intro hn hlen
    rw [hred, if_pos hn, if_neg (by omega)]
  · intro hneg
    rw [hred, if_neg (by omega), if_neg (show ¬ n = 0 by omega)]

/-- C7 witness: September 2026; the second Friday is the 11th, and a
fifth Friday does not exist. -/
theorem c7_ordinal_simple_testigo :
    (1 ≤ (9 : Int)) ∧ ((9 : Int) ≤ 12) ∧ (0 ≤ (4 : Int)) ∧ ((4 : Int) ≤ 6) ∧
      obtener_nth_dia_semana_del_mes 2026 9 4 2 = some ⟨2026, 9, 11⟩ ∧
      obtener_nth_dia_semana_del_mes 2026 9 4 5 = none := by
  refine ⟨by decide, by decide, by decide, by decide, ?_, ?_⟩
  · have h := (c7_ordinal_simple 2026 9 4 2 (by decide) (by decide) (by decide)
      (by decide)).2.1 (by decide)
    rw [h]
    decide
  · exact (c7_ordinal_simple 2026 9 4 5 (by decide) (by decide) (by decide)
      (by decide)).2.2.1 (by decide) (by decide)

end CalendarioLaboral
